import Mathlib

/-!
Verification of polkadot-introspector components against their specification.

The development shallowly embeds the Rust sources:

* `parachain-tracer/src/parachain_block_info.rs` — the parachain block
  tracking record and its predicates;
* `src/core/storage.rs` — the ephemeral hashed records storages (plain and
  prefixed);
* `parachain-tracer/src/main.rs` — the broadcast supervisor's stalled-tracker
  eviction;
* `introspector/src/core/telemetry_feed.rs` — the telemetry feed decoder.

Machine integers (`u32`, `u64`, `usize`) are modelled as `Nat`: every
arithmetic expression in the embedded code stays far below `2^32`
(for example `(max_availability_bits / 3) * 2 < 2^32` whenever
`max_availability_bits < 2^32`), so no wrapping can occur and the `Nat`
semantics agrees with the Rust semantics on the representable range.
Rust `HashMap`s are modelled as association lists; where the code depends
on a `HashMap`'s (unspecified) iteration order, the order is an explicit
parameter constrained to be a permutation of the entries.
-/

/-! ## `parachain-tracer/src/parachain_block_info.rs` -/

/-- The state of parachain block (enum `ParachainBlockState`). -/
inductive ParachainBlockState where
  | Idle
  | Backed
  | PendingAvailability
  | Included
deriving DecidableEq, Repr

/-- The parachain block tracking information (struct `ParachainBlockInfo`).
`C` stands for the Rust `BackedCandidate<H256>` and `H` for `H256`; the
embedded operations never inspect these values, only store and clear them.
The `cfg(test)`-only field `is_reset` is not part of the release build and is
omitted. -/
structure ParachainBlockInfo (C H : Type) where
  candidate : Option C
  candidate_hash : Option H
  state : ParachainBlockState
  bitfield_count : Nat
  max_availability_bits : Nat
  current_availability_bits : Nat
  assigned_core : Option Nat
  core_occupied : Bool
deriving DecidableEq

/-- `ParachainBlockInfo::is_idle`. -/
def ParachainBlockInfo.is_idle {C H : Type} (i : ParachainBlockInfo C H) : Bool :=
  decide (i.state = ParachainBlockState.Idle)

/-- `ParachainBlockInfo::is_included`. -/
def ParachainBlockInfo.is_included {C H : Type} (i : ParachainBlockInfo C H) : Bool :=
  decide (i.state = ParachainBlockState.Included)

/-- `ParachainBlockInfo::maybe_reset`: reset the tracking state only when the
current candidate has been included. -/
def ParachainBlockInfo.maybe_reset {C H : Type} (i : ParachainBlockInfo C H) :
    ParachainBlockInfo C H :=
  if i.is_included then
    { i with state := ParachainBlockState.Idle, candidate := none, candidate_hash := none }
  else
    i

/-- `ParachainBlockInfo::set_idle`. -/
def ParachainBlockInfo.set_idle {C H : Type} (i : ParachainBlockInfo C H) :
    ParachainBlockInfo C H :=
  { i with state := ParachainBlockState.Idle }

/-- `ParachainBlockInfo::set_backed`. -/
def ParachainBlockInfo.set_backed {C H : Type} (i : ParachainBlockInfo C H) :
    ParachainBlockInfo C H :=
  { i with state := ParachainBlockState.Backed }

/-- `ParachainBlockInfo::set_pending`. -/
def ParachainBlockInfo.set_pending {C H : Type} (i : ParachainBlockInfo C H) :
    ParachainBlockInfo C H :=
  { i with state := ParachainBlockState.PendingAvailability }

/-- `ParachainBlockInfo::set_included`. -/
def ParachainBlockInfo.set_included {C H : Type} (i : ParachainBlockInfo C H) :
    ParachainBlockInfo C H :=
  { i with state := ParachainBlockState.Included }

/-- `ParachainBlockInfo::is_data_available`:
`current_availability_bits > (max_availability_bits / 3) * 2`. -/
def ParachainBlockInfo.is_data_available {C H : Type} (i : ParachainBlockInfo C H) : Bool :=
  decide (i.current_availability_bits > i.max_availability_bits / 3 * 2)

/-- `ParachainBlockInfo::is_bitfield_propagation_low`:
`max_availability_bits > 0 && !is_idle() && bitfield_count <= (max_availability_bits / 3) * 2`. -/
def ParachainBlockInfo.is_bitfield_propagation_low {C H : Type}
    (i : ParachainBlockInfo C H) : Bool :=
  decide (i.max_availability_bits > 0) && !i.is_idle &&
    decide (i.bitfield_count ≤ i.max_availability_bits / 3 * 2)

/-- A concrete `ParachainBlockInfo` for the spec's S4 scenario:
`max_availability_bits = 200` and a given `current_availability_bits`. -/
def s4Info (cur : Nat) : ParachainBlockInfo Unit Unit :=
  { candidate := none
    candidate_hash := none
    state := ParachainBlockState.Idle
    bitfield_count := 0
    max_availability_bits := 200
    current_availability_bits := cur
    assigned_core := none
    core_occupied := false }

/-- C2 counterexample: with `max_availability_bits = 200`, the code computes
the threshold `(200 / 3) * 2 = 132`, so `current_availability_bits = 133`
already yields `is_data_available = true`; the claimed pair
(133 ↦ false, 134 ↦ true) is false on the code. -/
theorem C2_s4_threshold_cex :
    ¬ ((s4Info 133).is_data_available = false ∧ (s4Info 134).is_data_available = true) := by
  decide

/-- C2 amended: with `max_availability_bits = 200`, `is_data_available`
returns `false` at `current_availability_bits = 132` and `true` at
`133` and `134` (the integer threshold is `(200 / 3) * 2 = 132`). -/
theorem C2_s4_threshold :
    (s4Info 132).is_data_available = false ∧
      (s4Info 133).is_data_available = true ∧
      (s4Info 134).is_data_available = true := by
  decide

/-- C4: `maybe_reset` resets the state to `Idle` and clears `candidate` and
`candidate_hash` exactly when the state is `Included` before the call, and is
the identity in every other state (all other fields are untouched in both
cases, as the record update shows). -/
theorem C4_maybe_reset {C H : Type} (i : ParachainBlockInfo C H) :
    i.maybe_reset =
      if i.state = ParachainBlockState.Included then
        { i with state := ParachainBlockState.Idle, candidate := none, candidate_hash := none }
      else
        i := by
  unfold ParachainBlockInfo.maybe_reset ParachainBlockInfo.is_included
  by_cases h : i.state = ParachainBlockState.Included <;> simp [h]

/-- C5: `is_data_available` holds iff
`current_availability_bits > (max_availability_bits / 3) * 2`, and
`is_bitfield_propagation_low` holds iff `max_availability_bits > 0`, the
state is not `Idle`, and `bitfield_count ≤ (max_availability_bits / 3) * 2`
(all divisions are integer divisions). -/
theorem C5_availability_predicates {C H : Type} (i : ParachainBlockInfo C H) :
    (i.is_data_available = true ↔
      i.current_availability_bits > i.max_availability_bits / 3 * 2) ∧
    (i.is_bitfield_propagation_low = true ↔
      (i.max_availability_bits > 0 ∧ i.state ≠ ParachainBlockState.Idle ∧
        i.bitfield_count ≤ i.max_availability_bits / 3 * 2)) := by
  constructor
  · simp [ParachainBlockInfo.is_data_available]
  · simp [ParachainBlockInfo.is_bitfield_propagation_low, ParachainBlockInfo.is_idle,
      and_assoc]

/-! ## `src/core/storage.rs`

`HashMap<K, V>` is modelled as an association list `List (K × V)` whose
entries are the map's entries in some iteration order; `HashSet<K>` as a
duplicate-free `List K`. `insert` on a present key updates the entry in
place, on an absent key it appends (the position of a fresh entry in the
iteration order is unspecified in Rust; wherever the embedded code's result
depends on the order, the order is abstracted by an explicit permutation
parameter, see `prune`). -/

/-- `HashMap::get` on an association list. -/
def lookupKV {K V : Type} [DecidableEq K] : List (K × V) → K → Option V
  | [], _ => none
  | (k', v) :: rest, k => if k' = k then some v else lookupKV rest k

/-- `HashMap::contains_key` on an association list. -/
def containsKV {K V : Type} [DecidableEq K] (l : List (K × V)) (k : K) : Bool :=
  (lookupKV l k).isSome

/-- `HashMap::insert` on an association list: update in place when the key is
present, append otherwise. -/
def insertKV {K V : Type} [DecidableEq K] : List (K × V) → K → V → List (K × V)
  | [], k, v => [(k, v)]
  | (k', v') :: rest, k, v =>
      if k' = k then (k', v) :: rest else (k', v') :: insertKV rest k v

/-- `HashMap::remove` on an association list. -/
def eraseKV {K V : Type} [DecidableEq K] : List (K × V) → K → List (K × V)
  | [], _ => []
  | (k', v') :: rest, k => if k' = k then rest else (k', v') :: eraseKV rest k

/-- The keys of an association list, in iteration order (`HashMap::keys`). -/
def keysKV {K V : Type} (l : List (K × V)) : List K := l.map Prod.fst

/-- `HashSet::insert` on a duplicate-free list. -/
def insertSet {K : Type} [DecidableEq K] (s : List K) (k : K) : List K :=
  if k ∈ s then s else s ++ [k]

/-- Storage configuration (struct `RecordsStorageConfig`). -/
structure RecordsStorageConfig where
  max_blocks : Nat
deriving DecidableEq

/-- A type to identify the data source (enum `RecordSource`). -/
inductive RecordSource where
  | Onchain
  | Offchain
deriving DecidableEq

/-- Record timing information (struct `RecordTime`): a `u32` block number and
an optional timestamp (`Duration` modelled as nanoseconds). -/
structure RecordTime where
  block_number : Nat
  timestamp : Option Nat
deriving DecidableEq

/-- A generic storage entry (struct `StorageEntry`): source, time index and
the scale-encoded data bytes. -/
structure StorageEntry where
  record_source : RecordSource
  record_time : RecordTime
  data : List Nat
deriving DecidableEq

/-- `StorageInfo::time` for `StorageEntry`. -/
def StorageEntry.time (e : StorageEntry) : RecordTime := e.record_time

/-- Persistent in-memory storage with expiration (struct
`HashedPlainRecordsStorage<K>`). `ephemeral_records` maps a block number to
the set of keys inserted at that block; `direct_records` maps keys to
entries. -/
structure HashedPlainRecordsStorage (K : Type) where
  config : RecordsStorageConfig
  last_block : Option Nat
  ephemeral_records : List (Nat × List K)
  direct_records : List (K × StorageEntry)
deriving DecidableEq

/-- An abstraction of a Rust `HashMap`'s iteration order over the
`ephemeral_records` buckets: the code reads `ephemeral_records.iter().next()`,
which yields the first entry in an order the `HashMap` does not specify. A
lawful order is any permutation of the entries (`List.Perm`). -/
def LawfulIterOrder {K : Type} (ord : List (Nat × List K) → List (Nat × List K)) : Prop :=
  ∀ l, List.Perm (ord l) l

/-- `ephemeral_records.entry(block_number).or_insert_with(Default::default).insert(key)`:
add `key` to the bucket of `b`, creating the bucket when absent (a fresh
bucket is appended to the iteration order). -/
def ephemAdd {K : Type} [DecidableEq K] : List (Nat × List K) → Nat → K → List (Nat × List K)
  | [], b, k => [(b, [k])]
  | (b', s) :: rest, b, k =>
      if b' = b then (b', insertSet s k) :: rest else (b', s) :: ephemAdd rest b k

/-- `RecordsStorage::new` for `HashedPlainRecordsStorage`. -/
def HashedPlainRecordsStorage.new {K : Type} (config : RecordsStorageConfig) :
    HashedPlainRecordsStorage K :=
  { config := config, last_block := none, ephemeral_records := [], direct_records := [] }

/-- `HashedPlainRecordsStorage::prune`: when the number of buckets exceeds
`max_blocks`, drop the bucket `iter().next()` yields — the first in the
iteration order `ord` — and remove every key it lists from `direct_records`.
(The Rust code unwraps `iter().next()`; the `none` branch is unreachable for
a lawful `ord` since the bucket list is nonempty there.) -/
def HashedPlainRecordsStorage.prune {K : Type} [DecidableEq K]
    (st : HashedPlainRecordsStorage K)
    (ord : List (Nat × List K) → List (Nat × List K)) : HashedPlainRecordsStorage K :=
  if st.ephemeral_records.length > st.config.max_blocks then
    match (ord st.ephemeral_records).head? with
    | some (oldest_block, entries) =>
        { st with
          direct_records := entries.foldl (fun dr k => eraseKV dr k) st.direct_records
          ephemeral_records := eraseKV st.ephemeral_records oldest_block }
    | none => st
  else
    st

/-- `HashedPlainRecordsStorage::insert`: fail on a duplicate key; otherwise
record the entry's block number as `last_block`, store the entry, index the
key under its block bucket, and prune. Models `fn insert(&mut self, ...) ->
Result<()>` as a result paired with the post-state (the state is unchanged on
the error path). -/
def HashedPlainRecordsStorage.insert {K : Type} [DecidableEq K]
    (st : HashedPlainRecordsStorage K)
    (ord : List (Nat × List K) → List (Nat × List K)) (key : K) (entry : StorageEntry) :
    Except String Unit × HashedPlainRecordsStorage K :=
  if containsKV st.direct_records key then
    (Except.error "duplicate key", st)
  else
    let block_number := entry.time.block_number
    let st1 : HashedPlainRecordsStorage K :=
      { st with
        last_block := some block_number
        direct_records := insertKV st.direct_records key entry
        ephemeral_records := ephemAdd st.ephemeral_records block_number key }
    (Except.ok (), st1.prune ord)

/-- `HashedPlainRecordsStorage::replace`: replace an existing entry, returning
the previous one; return `None` and change nothing when the key is absent. -/
def HashedPlainRecordsStorage.replace {K : Type} [DecidableEq K]
    (st : HashedPlainRecordsStorage K) (key : K) (entry : StorageEntry) :
    Option StorageEntry × HashedPlainRecordsStorage K :=
  match lookupKV st.direct_records key with
  | none => (none, st)
  | some old => (some old, { st with direct_records := insertKV st.direct_records key entry })

/-- `HashedPlainRecordsStorage::get`. -/
def HashedPlainRecordsStorage.get {K : Type} [DecidableEq K]
    (st : HashedPlainRecordsStorage K) (key : K) : Option StorageEntry :=
  lookupKV st.direct_records key

/-- `HashedPlainRecordsStorage::len`. -/
def HashedPlainRecordsStorage.len {K : Type} (st : HashedPlainRecordsStorage K) : Nat :=
  st.direct_records.length

/-- `HashedPlainRecordsStorage::keys`. -/
def HashedPlainRecordsStorage.keys {K : Type} (st : HashedPlainRecordsStorage K) : List K :=
  keysKV st.direct_records

/-- Prefixed storage (struct `HashedPrefixedRecordsStorage<K, P>`):
`prefixed_records` maps each prefix to its own key-to-entry map. -/
structure HashedPrefixedRecordsStorage (K P : Type) where
  config : RecordsStorageConfig
  last_block : Option Nat
  ephemeral_records : List (Nat × List K)
  prefixed_records : List (P × List (K × StorageEntry))
deriving DecidableEq

/-- `RecordsStorage::new` for `HashedPrefixedRecordsStorage`. -/
def HashedPrefixedRecordsStorage.new {K P : Type} (config : RecordsStorageConfig) :
    HashedPrefixedRecordsStorage K P :=
  { config := config, last_block := none, ephemeral_records := [], prefixed_records := [] }

/-- `RecordsStorage::insert` for the prefixed storage always fails: a
non-prefixed key cannot be inserted into a prefixed storage. -/
def HashedPrefixedRecordsStorage.insert {K P : Type}
    (st : HashedPrefixedRecordsStorage K P) (_key : K) (_entry : StorageEntry) :
    Except String Unit × HashedPrefixedRecordsStorage K P :=
  (Except.error "trying to insert key with no prefix to the prefixed storage", st)

/-- The loop of `HashedPrefixedRecordsStorage::replace`: scan the prefix maps
in iteration order and replace in the first map holding the key. -/
def replaceInMaps {K P : Type} [DecidableEq K] :
    List (P × List (K × StorageEntry)) → K → StorageEntry →
      Option StorageEntry × List (P × List (K × StorageEntry))
  | [], _, _ => (none, [])
  | (p, m) :: rest, k, e =>
      match lookupKV m k with
      | some old => (some old, (p, insertKV m k e) :: rest)
      | none =>
          let r := replaceInMaps rest k e
          (r.1, (p, m) :: r.2)

/-- `HashedPrefixedRecordsStorage::replace`. -/
def HashedPrefixedRecordsStorage.replace {K P : Type} [DecidableEq K]
    (st : HashedPrefixedRecordsStorage K P) (key : K) (entry : StorageEntry) :
    Option StorageEntry × HashedPrefixedRecordsStorage K P :=
  let r := replaceInMaps st.prefixed_records key entry
  (r.1, { st with prefixed_records := r.2 })

/-- `HashedPrefixedRecordsStorage::prune`: as the plain `prune`, but the keys
of the dropped bucket are removed from every prefix map. -/
def HashedPrefixedRecordsStorage.prune {K P : Type} [DecidableEq K]
    (st : HashedPrefixedRecordsStorage K P)
    (ord : List (Nat × List K) → List (Nat × List K)) : HashedPrefixedRecordsStorage K P :=
  if st.ephemeral_records.length > st.config.max_blocks then
    match (ord st.ephemeral_records).head? with
    | some (oldest_block, entries) =>
        { st with
          prefixed_records :=
            entries.foldl
              (fun pr k => pr.map (fun pm => (pm.1, eraseKV pm.2 k))) st.prefixed_records
          ephemeral_records := eraseKV st.ephemeral_records oldest_block }
    | none => st
  else
    st

/-- `HashedPrefixedRecordsStorage::get`: find the key in any prefix map. -/
def HashedPrefixedRecordsStorage.get {K P : Type} [DecidableEq K]
    (st : HashedPrefixedRecordsStorage K P) (key : K) : Option StorageEntry :=
  st.prefixed_records.findSome? (fun pm => lookupKV pm.2 key)

/-- `HashedPrefixedRecordsStorage::len`: the sum of the prefix maps' sizes. -/
def HashedPrefixedRecordsStorage.len {K P : Type}
    (st : HashedPrefixedRecordsStorage K P) : Nat :=
  (st.prefixed_records.map (fun pm => pm.2.length)).sum

/-- `HashedPrefixedRecordsStorage::keys`: the keys of all prefix maps. -/
def HashedPrefixedRecordsStorage.keys {K P : Type}
    (st : HashedPrefixedRecordsStorage K P) : List K :=
  (st.prefixed_records.map (fun pm => keysKV pm.2)).flatten

/-- `PrefixedRecordsStorage::insert_prefix`: fail on a duplicate key within
the prefix; otherwise store under the prefix, index the key under its block
bucket, and prune. -/
def HashedPrefixedRecordsStorage.insert_prefix {K P : Type} [DecidableEq K] [DecidableEq P]
    (st : HashedPrefixedRecordsStorage K P)
    (ord : List (Nat × List K) → List (Nat × List K)) (p : P) (key : K)
    (entry : StorageEntry) : Except String Unit × HashedPrefixedRecordsStorage K P :=
  let direct_storage := (lookupKV st.prefixed_records p).getD []
  if containsKV direct_storage key then
    (Except.error "duplicate key", st)
  else
    let block_number := entry.time.block_number
    let st1 : HashedPrefixedRecordsStorage K P :=
      { st with
        last_block := some block_number
        prefixed_records := insertKV st.prefixed_records p (insertKV direct_storage key entry)
        ephemeral_records := ephemAdd st.ephemeral_records block_number key }
    (Except.ok (), st1.prune ord)

/-- `PrefixedRecordsStorage::replace_prefix`: both the prefix and the key must
exist; replace the entry and return the previous one, else change nothing. -/
def HashedPrefixedRecordsStorage.replace_prefix {K P : Type} [DecidableEq K] [DecidableEq P]
    (st : HashedPrefixedRecordsStorage K P) (p : P) (key : K) (entry : StorageEntry) :
    Option StorageEntry × HashedPrefixedRecordsStorage K P :=
  match lookupKV st.prefixed_records p with
  | none => (none, st)
  | some direct_storage =>
      match lookupKV direct_storage key with
      | none => (none, st)
      | some old =>
          (some old,
            { st with
              prefixed_records :=
                insertKV st.prefixed_records p (insertKV direct_storage key entry) })

/-- `PrefixedRecordsStorage::get_prefix`. -/
def HashedPrefixedRecordsStorage.get_prefix {K P : Type} [DecidableEq K] [DecidableEq P]
    (st : HashedPrefixedRecordsStorage K P) (p : P) (key : K) : Option StorageEntry :=
  match lookupKV st.prefixed_records p with
  | none => none
  | some direct_storage => lookupKV direct_storage key

/-! ### Association-list lemmas -/

theorem lookupKV_insertKV_self {K V : Type} [DecidableEq K] (l : List (K × V)) (k : K) (v : V) :
    lookupKV (insertKV l k v) k = some v := by
  induction l with
  | nil => simp [insertKV, lookupKV]
  | cons hd tl ih =>
      obtain ⟨k', v'⟩ := hd
      by_cases h : k' = k <;> simp [insertKV, lookupKV, h, ih]

theorem length_insertKV_of_contains {K V : Type} [DecidableEq K] (l : List (K × V)) (k : K)
    (v : V) (h : containsKV l k = true) : (insertKV l k v).length = l.length := by
  induction l with
  | nil => simp [containsKV, lookupKV] at h
  | cons hd tl ih =>
      obtain ⟨k', v'⟩ := hd
      by_cases hk : k' = k
      · simp [insertKV, hk]
      · simp only [containsKV, lookupKV, if_neg hk] at h
        simp [insertKV, if_neg hk, ih h]

theorem keysKV_insertKV_of_contains {K V : Type} [DecidableEq K] (l : List (K × V)) (k : K)
    (v : V) (h : containsKV l k = true) : keysKV (insertKV l k v) = keysKV l := by
  induction l with
  | nil => simp [containsKV, lookupKV] at h
  | cons hd tl ih =>
      obtain ⟨k', v'⟩ := hd
      by_cases hk : k' = k
      · simp [insertKV, keysKV, hk]
      · simp only [containsKV, lookupKV, if_neg hk] at h
        simp [insertKV, keysKV, if_neg hk] at ih ⊢
        exact ih h

theorem contains_of_lookup_some {K V : Type} [DecidableEq K] {l : List (K × V)} {k : K}
    {v : V} (h : lookupKV l k = some v) : containsKV l k = true := by
  simp [containsKV, h]

theorem length_eraseKV_of_mem {K V : Type} [DecidableEq K] (l : List (K × V)) (k : K)
    (h : k ∈ keysKV l) : (eraseKV l k).length + 1 = l.length := by
  induction l with
  | nil => simp [keysKV] at h
  | cons hd tl ih =>
      obtain ⟨k', v'⟩ := hd
      by_cases hk : k' = k
      · simp [eraseKV, hk]
      · simp only [keysKV, List.map_cons, List.mem_cons] at h
        rcases h with h | h
        · exact absurd h.symm hk
        · simp [eraseKV, if_neg hk, ih h]

theorem ephemAdd_length_le {K : Type} [DecidableEq K] (l : List (Nat × List K)) (b : Nat)
    (k : K) : (ephemAdd l b k).length ≤ l.length + 1 := by
  induction l with
  | nil => simp [ephemAdd]
  | cons hd tl ih =>
      obtain ⟨b', s⟩ := hd
      by_cases hb : b' = b
      · simp [ephemAdd, hb]
      · simp only [ephemAdd, if_neg hb, List.length_cons]
        omega

/-! ### C8, C9, C10: insert/replace behaviour of the records stores -/

/-- C8: when `key` already holds `e1`, a second `insert` fails with the
duplicate-key error and leaves the store untouched (so `get` still yields
`e1`); a subsequent `replace` returns the prior entry `e1` and afterwards
`get` yields the new entry `e3`. -/
theorem C8_insert_duplicate_then_replace {K : Type} [DecidableEq K]
    (st : HashedPlainRecordsStorage K)
    (ord : List (Nat × List K) → List (Nat × List K)) (k : K) (e1 e2 e3 : StorageEntry)
    (h : st.get k = some e1) :
    st.insert ord k e2 = (Except.error "duplicate key", st) ∧
      (st.replace k e3).1 = some e1 ∧
      ((st.replace k e3).2).get k = some e3 := by
  have hc : containsKV st.direct_records k = true := contains_of_lookup_some h
  refine ⟨?_, ?_, ?_⟩
  · simp [HashedPlainRecordsStorage.insert, hc]
  · simp [HashedPlainRecordsStorage.replace, HashedPlainRecordsStorage.get] at h ⊢
    simp [h]
  · simp [HashedPlainRecordsStorage.replace, HashedPlainRecordsStorage.get] at h ⊢
    simp [h, HashedPlainRecordsStorage.get, lookupKV_insertKV_self]

/-- The entry stored for the spec's S3 scenario, with payload byte `d`. -/
def s3entry (d : Nat) : StorageEntry :=
  { record_source := RecordSource.Onchain
    record_time := { block_number := 1, timestamp := none }
    data := [d] }

/-- The store of the S3 scenario: `("key", onchain, block=1, payload 1)`
inserted into a fresh store with `max_blocks = 1`. -/
def s3store : HashedPlainRecordsStorage String :=
  ((HashedPlainRecordsStorage.new { max_blocks := 1 }).insert (fun l => l) "key" (s3entry 1)).2

/-- C8 witness: the S3 scenario at concrete inputs. -/
theorem C8_insert_duplicate_then_replace_witness :
    s3store.insert (fun l => l) "key" (s3entry 2) = (Except.error "duplicate key", s3store) ∧
      (s3store.replace "key" (s3entry 2)).1 = some (s3entry 1) ∧
      ((s3store.replace "key" (s3entry 2)).2).get "key" = some (s3entry 2) :=
  C8_insert_duplicate_then_replace s3store (fun l => l) "key" (s3entry 1) (s3entry 2)
    (s3entry 2) (by decide)

theorem replaceInMaps_of_absent {K P : Type} [DecidableEq K]
    (l : List (P × List (K × StorageEntry))) (k : K) (e : StorageEntry)
    (h : ∀ pm ∈ l, lookupKV pm.2 k = none) : replaceInMaps l k e = (none, l) := by
  induction l with
  | nil => simp [replaceInMaps]
  | cons hd tl ih =>
      obtain ⟨p, m⟩ := hd
      have hm : lookupKV m k = none := h (p, m) (List.mem_cons_self _ _)
      have ht : ∀ pm ∈ tl, lookupKV pm.2 k = none := fun pm hpm => h pm (List.mem_cons_of_mem _ hpm)
      simp [replaceInMaps, hm, ih ht]

/-- C9: on a key absent from the store, `replace` returns `None` and inserts
nothing — the whole store (keys and values) is unchanged — for the plain and
the prefixed storage alike. -/
theorem C9_replace_absent {K P : Type} [DecidableEq K] [DecidableEq P]
    (st : HashedPlainRecordsStorage K) (pst : HashedPrefixedRecordsStorage K P) (k : K)
    (e : StorageEntry) (h1 : st.get k = none) (h2 : pst.get k = none) :
    st.replace k e = (none, st) ∧ pst.replace k e = (none, pst) := by
  constructor
  · simp [HashedPlainRecordsStorage.get] at h1
    simp [HashedPlainRecordsStorage.replace, h1]
  · simp only [HashedPrefixedRecordsStorage.get, List.findSome?_eq_none_iff] at h2
    simp [HashedPrefixedRecordsStorage.replace, replaceInMaps_of_absent _ _ _ h2]

/-- An empty prefixed store over `Nat` keys and prefixes, for witnesses. -/
def emptyPrefStore : HashedPrefixedRecordsStorage Nat Nat :=
  HashedPrefixedRecordsStorage.new { max_blocks := 1 }

/-- An empty plain store over `Nat` keys, for witnesses. -/
def emptyPlainStore : HashedPlainRecordsStorage Nat :=
  HashedPlainRecordsStorage.new { max_blocks := 1 }

/-- C9 witness: replacing the absent key `0` in empty stores. -/
theorem C9_replace_absent_witness :
    emptyPlainStore.replace 0 (s3entry 1) = (none, emptyPlainStore) ∧
      emptyPrefStore.replace 0 (s3entry 1) = (none, emptyPrefStore) :=
  C9_replace_absent emptyPlainStore emptyPrefStore 0 (s3entry 1) (by decide) (by decide)

theorem map_insertKV_of_lookup {K V α : Type} [DecidableEq K] (l : List (K × V)) (k : K)
    (v w : V) (g : K × V → α) (hl : lookupKV l k = some w) (hg : g (k, v) = g (k, w)) :
    (insertKV l k v).map g = l.map g := by
  induction l with
  | nil => simp [lookupKV] at hl
  | cons hd tl ih =>
      obtain ⟨k', v'⟩ := hd
      by_cases hk : k' = k
      · subst hk
        simp [lookupKV] at hl
        subst hl
        simp [insertKV, hg]
      · simp only [lookupKV, if_neg hk] at hl
        simp [insertKV, if_neg hk, ih hl]

/-- C10: a successful `replace` (respectively `replace_prefix`) rewrites only
the direct value: `ephemeral_records` — the block-number index that governs
pruning — is left exactly as the original entry's insertion built it, and
`len` and `keys` are unchanged, even when the new entry carries a different
`block_number`. -/
theorem C10_replace_preserves_index {K P : Type} [DecidableEq K] [DecidableEq P]
    (st : HashedPlainRecordsStorage K) (pst : HashedPrefixedRecordsStorage K P)
    (k k2 : K) (p : P) (e e2 old old2 : StorageEntry)
    (h1 : st.get k = some old) (h2 : pst.get_prefix p k2 = some old2) :
    ((st.replace k e).2.ephemeral_records = st.ephemeral_records ∧
      (st.replace k e).2.len = st.len ∧
      (st.replace k e).2.keys = st.keys) ∧
    ((pst.replace_prefix p k2 e2).2.ephemeral_records = pst.ephemeral_records ∧
      (pst.replace_prefix p k2 e2).2.len = pst.len ∧
      (pst.replace_prefix p k2 e2).2.keys = pst.keys) := by
  constructor
  · simp only [HashedPlainRecordsStorage.get] at h1
    have hc : containsKV st.direct_records k = true := contains_of_lookup_some h1
    refine ⟨?_, ?_, ?_⟩
    · simp [HashedPlainRecordsStorage.replace, h1]
    · simp [HashedPlainRecordsStorage.replace, h1, HashedPlainRecordsStorage.len,
        length_insertKV_of_contains _ _ _ hc]
    · simp [HashedPlainRecordsStorage.replace, h1, HashedPlainRecordsStorage.keys,
        keysKV_insertKV_of_contains _ _ _ hc]
  · cases hm : lookupKV pst.prefixed_records p with
    | none => simp [HashedPrefixedRecordsStorage.get_prefix, hm] at h2
    | some m =>
        simp only [HashedPrefixedRecordsStorage.get_prefix, hm] at h2
        have hc2 : containsKV m k2 = true := contains_of_lookup_some h2
        have hlen : ((insertKV pst.prefixed_records p (insertKV m k2 e2)).map
            (fun pm => pm.2.length)) = pst.prefixed_records.map (fun pm => pm.2.length) :=
          map_insertKV_of_lookup _ _ _ _ _ hm
            (by simp [length_insertKV_of_contains _ _ _ hc2])
        have hkeys : ((insertKV pst.prefixed_records p (insertKV m k2 e2)).map
            (fun pm => keysKV pm.2)) = pst.prefixed_records.map (fun pm => keysKV pm.2) :=
          map_insertKV_of_lookup _ _ _ _ _ hm
            (by simp [keysKV_insertKV_of_contains _ _ _ hc2])
        refine ⟨?_, ?_, ?_⟩
        · simp [HashedPrefixedRecordsStorage.replace_prefix, hm, h2]
        · simp [HashedPrefixedRecordsStorage.replace_prefix, hm, h2,
            HashedPrefixedRecordsStorage.len, hlen]
        · simp [HashedPrefixedRecordsStorage.replace_prefix, hm, h2,
            HashedPrefixedRecordsStorage.keys, hkeys]

/-- A storage entry recorded at block `b` with empty payload. -/
def entryAt (b : Nat) : StorageEntry :=
  { record_source := RecordSource.Onchain
    record_time := { block_number := b, timestamp := none }
    data := [] }

/-- A prefixed store holding key `"aba"` under prefix `0`, for witnesses. -/
def c10PrefStore : HashedPrefixedRecordsStorage String Nat :=
  (HashedPrefixedRecordsStorage.insert_prefix
    (HashedPrefixedRecordsStorage.new { max_blocks := 1 }) (fun l => l) 0 "aba"
    (entryAt 1)).2

/-- C10 witness: replacing the present keys in concrete stores. -/
theorem C10_replace_preserves_index_witness :
    ((s3store.replace "key" (entryAt 9)).2.ephemeral_records = s3store.ephemeral_records ∧
      (s3store.replace "key" (entryAt 9)).2.len = s3store.len ∧
      (s3store.replace "key" (entryAt 9)).2.keys = s3store.keys) ∧
    ((c10PrefStore.replace_prefix 0 "aba" (entryAt 9)).2.ephemeral_records =
        c10PrefStore.ephemeral_records ∧
      (c10PrefStore.replace_prefix 0 "aba" (entryAt 9)).2.len = c10PrefStore.len ∧
      (c10PrefStore.replace_prefix 0 "aba" (entryAt 9)).2.keys = c10PrefStore.keys) :=
  C10_replace_preserves_index s3store c10PrefStore "key" "aba" 0 (entryAt 9) (entryAt 9)
    (s3entry 1) (entryAt 1) (by decide) (by decide)

/-! ### C6: the bucket-count invariant -/

/-- The mutations claim C6 ranges over, for the plain store. -/
inductive PlainOp (K : Type) where
  | insertOp (k : K) (e : StorageEntry)
  | replaceOp (k : K) (e : StorageEntry)
  | pruneOp

/-- Run one plain-store mutation. -/
def applyPlainOp {K : Type} [DecidableEq K]
    (ord : List (Nat × List K) → List (Nat × List K))
    (st : HashedPlainRecordsStorage K) : PlainOp K → HashedPlainRecordsStorage K
  | PlainOp.insertOp k e => (st.insert ord k e).2
  | PlainOp.replaceOp k e => (st.replace k e).2
  | PlainOp.pruneOp => st.prune ord

/-- The mutations claim C6 ranges over, for the prefixed store. -/
inductive PrefOp (K P : Type) where
  | insertOp (k : K) (e : StorageEntry)
  | insertPrefOp (p : P) (k : K) (e : StorageEntry)
  | replaceOp (k : K) (e : StorageEntry)
  | replacePrefOp (p : P) (k : K) (e : StorageEntry)
  | pruneOp

/-- Run one prefixed-store mutation. -/
def applyPrefOp {K P : Type} [DecidableEq K] [DecidableEq P]
    (ord : List (Nat × List K) → List (Nat × List K))
    (st : HashedPrefixedRecordsStorage K P) : PrefOp K P → HashedPrefixedRecordsStorage K P
  | PrefOp.insertOp k e => (st.insert k e).2
  | PrefOp.insertPrefOp p k e => (st.insert_prefix ord p k e).2
  | PrefOp.replaceOp k e => (st.replace k e).2
  | PrefOp.replacePrefOp p k e => (st.replace_prefix p k e).2
  | PrefOp.pruneOp => st.prune ord

theorem prune_ephemeral_le {K : Type} [DecidableEq K] (st : HashedPlainRecordsStorage K)
    (ord : List (Nat × List K) → List (Nat × List K)) (hord : LawfulIterOrder ord)
    (h : st.ephemeral_records.length ≤ st.config.max_blocks + 1) :
    (st.prune ord).ephemeral_records.length ≤ st.config.max_blocks := by
  have hlen : (ord st.ephemeral_records).length = st.ephemeral_records.length :=
    (hord st.ephemeral_records).length_eq
  unfold HashedPlainRecordsStorage.prune
  split
  · split
    · rename_i hgt b s hh
      have hx : (b, s) ∈ st.ephemeral_records :=
        (hord st.ephemeral_records).mem_iff.mp (List.mem_of_mem_head? hh)
      have hb : b ∈ keysKV st.ephemeral_records := List.mem_map_of_mem Prod.fst hx
      have he := length_eraseKV_of_mem st.ephemeral_records b hb
      show (eraseKV st.ephemeral_records b).length ≤ st.config.max_blocks
      omega
    · rename_i hgt hh
      rw [List.head?_eq_none_iff] at hh
      rw [hh] at hlen
      simp only [List.length_nil] at hlen
      omega
  · rename_i hgt
    omega

theorem prune_config {K : Type} [DecidableEq K] (st : HashedPlainRecordsStorage K)
    (ord : List (Nat × List K) → List (Nat × List K)) :
    (st.prune ord).config = st.config := by
  unfold HashedPlainRecordsStorage.prune
  split
  · split <;> rfl
  · rfl

theorem insert_eq {K : Type} [DecidableEq K] (st : HashedPlainRecordsStorage K)
    (ord : List (Nat × List K) → List (Nat × List K)) (k : K) (e : StorageEntry) :
    st.insert ord k e =
      if containsKV st.direct_records k then (Except.error "duplicate key", st)
      else
        (Except.ok (),
          HashedPlainRecordsStorage.prune
            { st with
              last_block := some e.time.block_number
              direct_records := insertKV st.direct_records k e
              ephemeral_records := ephemAdd st.ephemeral_records e.time.block_number k }
            ord) := rfl

theorem applyPlainOp_inv {K : Type} [DecidableEq K]
    (ord : List (Nat × List K) → List (Nat × List K)) (hord : LawfulIterOrder ord)
    (st : HashedPlainRecordsStorage K) (op : PlainOp K)
    (h : st.ephemeral_records.length ≤ st.config.max_blocks) :
    (applyPlainOp ord st op).config = st.config ∧
      (applyPlainOp ord st op).ephemeral_records.length ≤ st.config.max_blocks := by
  cases op with
  | insertOp k e =>
      simp only [applyPlainOp, insert_eq]
      split
      · exact ⟨rfl, h⟩
      · refine ⟨prune_config _ _, ?_⟩
        refine prune_ephemeral_le _ ord hord ?_
        show (ephemAdd st.ephemeral_records e.time.block_number k).length ≤
          st.config.max_blocks + 1
        have := ephemAdd_length_le st.ephemeral_records e.time.block_number k
        omega
  | replaceOp k e =>
      simp only [applyPlainOp]
      unfold HashedPlainRecordsStorage.replace
      split
      · exact ⟨rfl, h⟩
      · exact ⟨rfl, h⟩
  | pruneOp =>
      exact ⟨prune_config _ _, prune_ephemeral_le st ord hord (by omega)⟩

theorem foldl_applyPlainOp_inv {K : Type} [DecidableEq K]
    (ord : List (Nat × List K) → List (Nat × List K)) (hord : LawfulIterOrder ord) :
    ∀ (ops : List (PlainOp K)) (st : HashedPlainRecordsStorage K),
      st.ephemeral_records.length ≤ st.config.max_blocks →
        (ops.foldl (applyPlainOp ord) st).config = st.config ∧
          (ops.foldl (applyPlainOp ord) st).ephemeral_records.length ≤ st.config.max_blocks
  | [], st, h => ⟨rfl, h⟩
  | op :: ops, st, h => by
      obtain ⟨hc, hl⟩ := applyPlainOp_inv ord hord st op h
      obtain ⟨hc2, hl2⟩ :=
        foldl_applyPlainOp_inv ord hord ops (applyPlainOp ord st op) (by rw [hc]; exact hl)
      rw [hc] at hc2 hl2
      exact ⟨hc2, hl2⟩

theorem prunePref_ephemeral_le {K P : Type} [DecidableEq K]
    (st : HashedPrefixedRecordsStorage K P)
    (ord : List (Nat × List K) → List (Nat × List K)) (hord : LawfulIterOrder ord)
    (h : st.ephemeral_records.length ≤ st.config.max_blocks + 1) :
    (st.prune ord).ephemeral_records.length ≤ st.config.max_blocks := by
  have hlen : (ord st.ephemeral_records).length = st.ephemeral_records.length :=
    (hord st.ephemeral_records).length_eq
  unfold HashedPrefixedRecordsStorage.prune
  split
  · split
    · rename_i hgt b s hh
      have hx : (b, s) ∈ st.ephemeral_records :=
        (hord st.ephemeral_records).mem_iff.mp (List.mem_of_mem_head? hh)
      have hb : b ∈ keysKV st.ephemeral_records := List.mem_map_of_mem Prod.fst hx
      have he := length_eraseKV_of_mem st.ephemeral_records b hb
      show (eraseKV st.ephemeral_records b).length ≤ st.config.max_blocks
      omega
    · rename_i hgt hh
      rw [List.head?_eq_none_iff] at hh
      rw [hh] at hlen
      simp only [List.length_nil] at hlen
      omega
  · rename_i hgt
    omega

theorem prunePref_config {K P : Type} [DecidableEq K]
    (st : HashedPrefixedRecordsStorage K P)
    (ord : List (Nat × List K) → List (Nat × List K)) :
    (st.prune ord).config = st.config := by
  unfold HashedPrefixedRecordsStorage.prune
  split
  · split <;> rfl
  · rfl

theorem insertPref_eq {K P : Type} [DecidableEq K] [DecidableEq P]
    (st : HashedPrefixedRecordsStorage K P)
    (ord : List (Nat × List K) → List (Nat × List K)) (p : P) (k : K) (e : StorageEntry) :
    st.insert_prefix ord p k e =
      if containsKV ((lookupKV st.prefixed_records p).getD []) k then
        (Except.error "duplicate key", st)
      else
        (Except.ok (),
          HashedPrefixedRecordsStorage.prune
            { st with
              last_block := some e.time.block_number
              prefixed_records :=
                insertKV st.prefixed_records p
                  (insertKV ((lookupKV st.prefixed_records p).getD []) k e)
              ephemeral_records := ephemAdd st.ephemeral_records e.time.block_number k }
            ord) := rfl

theorem applyPrefOp_inv {K P : Type} [DecidableEq K] [DecidableEq P]
    (ord : List (Nat × List K) → List (Nat × List K)) (hord : LawfulIterOrder ord)
    (st : HashedPrefixedRecordsStorage K P) (op : PrefOp K P)
    (h : st.ephemeral_records.length ≤ st.config.max_blocks) :
    (applyPrefOp ord st op).config = st.config ∧
      (applyPrefOp ord st op).ephemeral_records.length ≤ st.config.max_blocks := by
  cases op with
  | insertOp k e => exact ⟨rfl, h⟩
  | insertPrefOp p k e =>
      simp only [applyPrefOp, insertPref_eq]
      split
      · exact ⟨rfl, h⟩
      · refine ⟨prunePref_config _ _, ?_⟩
        refine prunePref_ephemeral_le _ ord hord ?_
        show (ephemAdd st.ephemeral_records e.time.block_number k).length ≤
          st.config.max_blocks + 1
        have := ephemAdd_length_le st.ephemeral_records e.time.block_number k
        omega
  | replaceOp k e => exact ⟨rfl, h⟩
  | replacePrefOp p k e =>
      simp only [applyPrefOp]
      unfold HashedPrefixedRecordsStorage.replace_prefix
      split
      · exact ⟨rfl, h⟩
      · split
        · exact ⟨rfl, h⟩
        · exact ⟨rfl, h⟩
  | pruneOp =>
      exact ⟨prunePref_config _ _, prunePref_ephemeral_le st ord hord (by omega)⟩

theorem foldl_applyPrefOp_inv {K P : Type} [DecidableEq K] [DecidableEq P]
    (ord : List (Nat × List K) → List (Nat × List K)) (hord : LawfulIterOrder ord) :
    ∀ (pops : List (PrefOp K P)) (st : HashedPrefixedRecordsStorage K P),
      st.ephemeral_records.length ≤ st.config.max_blocks →
        (pops.foldl (applyPrefOp ord) st).config = st.config ∧
          (pops.foldl (applyPrefOp ord) st).ephemeral_records.length ≤ st.config.max_blocks
  | [], st, h => ⟨rfl, h⟩
  | op :: pops, st, h => by
      obtain ⟨hc, hl⟩ := applyPrefOp_inv ord hord st op h
      obtain ⟨hc2, hl2⟩ :=
        foldl_applyPrefOp_inv ord hord pops (applyPrefOp ord st op) (by rw [hc]; exact hl)
      rw [hc] at hc2 hl2
      exact ⟨hc2, hl2⟩

/-- C6: starting from a fresh store with configuration `cfg`, after any
sequence of `insert` / `insert_prefix` / `replace` / `replace_prefix` /
`prune` mutations — run with any lawful `HashMap` iteration order — the
number of populated block buckets is at most `cfg.max_blocks`, for the plain
and the prefixed storage alike. -/
theorem C6_bucket_bound {K P : Type} [DecidableEq K] [DecidableEq P]
    (cfg : RecordsStorageConfig) (ops : List (PlainOp K)) (pops : List (PrefOp K P))
    (ord : List (Nat × List K) → List (Nat × List K)) (hord : LawfulIterOrder ord) :
    (ops.foldl (applyPlainOp ord) (HashedPlainRecordsStorage.new cfg)).ephemeral_records.length ≤
        cfg.max_blocks ∧
      (pops.foldl (applyPrefOp ord)
          (HashedPrefixedRecordsStorage.new cfg)).ephemeral_records.length ≤
        cfg.max_blocks := by
  constructor
  · exact (foldl_applyPlainOp_inv ord hord ops (HashedPlainRecordsStorage.new cfg)
      (by simp [HashedPlainRecordsStorage.new])).2
  · exact (foldl_applyPrefOp_inv ord hord pops (HashedPrefixedRecordsStorage.new cfg)
      (by simp [HashedPrefixedRecordsStorage.new])).2

/-- A concrete plain-op sequence: two inserts at blocks 5 and 3, then a prune. -/
def c6ops : List (PlainOp Nat) :=
  [PlainOp.insertOp 1 (entryAt 5), PlainOp.insertOp 2 (entryAt 3), PlainOp.pruneOp]

/-- A concrete prefixed-op sequence: two prefixed inserts at blocks 5 and 3. -/
def c6pops : List (PrefOp Nat Nat) :=
  [PrefOp.insertPrefOp 0 1 (entryAt 5), PrefOp.insertPrefOp 0 2 (entryAt 3)]

/-- C6 witness: the bucket bound after concrete mutation sequences with
`max_blocks = 1` and the identity iteration order. -/
theorem C6_bucket_bound_witness :
    (c6ops.foldl (applyPlainOp (fun l => l))
        (HashedPlainRecordsStorage.new { max_blocks := 1 })).ephemeral_records.length ≤ 1 ∧
      (c6pops.foldl (applyPrefOp (fun l => l))
          (HashedPrefixedRecordsStorage.new { max_blocks := 1 })).ephemeral_records.length ≤ 1 :=
  C6_bucket_bound { max_blocks := 1 } c6ops c6pops (fun l => l) (fun l => List.Perm.refl l)

/-! ### C1: which bucket does `prune` drop?

`prune` reads `self.ephemeral_records.iter().next().unwrap()` — the first
bucket in the `HashMap`'s iteration order. A Rust `HashMap` does not iterate
in ascending key order (and the order varies between runs), so the dropped
bucket is not in general the one with the smallest block number, although the
code's own comment says "Prune all entries at oldest block". Below, the store
holds buckets for blocks 5 and 3 and the iteration order presents the bucket
of block 5 first (the identity order on the bucket list, a lawful
permutation): `prune` then drops block 5 — the newest — and keeps block 3. -/

/-- The store after inserting key `1` at block `5` into a fresh store with
`max_blocks = 1` (no pruning yet: one bucket). -/
def c1store1 : HashedPlainRecordsStorage Nat :=
  ((HashedPlainRecordsStorage.new { max_blocks := 1 }).insert (fun l => l) 1 (entryAt 5)).2

/-- The store after additionally inserting key `2` at block `3`: the insert
creates the bucket of block 3 and triggers `prune` with buckets
`[(5, {1}), (3, {2})]` in iteration order. -/
def c1store2 : HashedPlainRecordsStorage Nat :=
  (c1store1.insert (fun l => l) 2 (entryAt 3)).2

/-- C1 code bug, evaluated: under the (lawful) iteration order that presents
the bucket of block 5 first, `prune` removes the bucket of block 5 and its
key 1, and keeps the bucket of block 3 — the oldest bucket, the one the
claim says must be dropped, survives. -/
theorem C1_prune_drops_first_iterated_bucket :
    LawfulIterOrder (fun l : List (Nat × List Nat) => l) ∧
      c1store1.ephemeral_records = [(5, [1])] ∧
      c1store2.ephemeral_records = [(3, [2])] ∧
      c1store2.get 1 = none ∧
      c1store2.get 2 = some (entryAt 3) :=
  ⟨fun l => List.Perm.refl l, by decide, by decide, by decide, by decide⟩

/-! ## `parachain-tracer/src/main.rs`: the broadcast supervisor

`watch_node_broadcast` keeps, per parachain, a tracker channel and the last
relay block at which a head was seen; `evict_stalled` drops every parachain
whose last block lags the maximum by more than `max_stall`. The model keeps
the supervisor state the eviction logic reads and writes: the tracked para
ids, the `last_blocks` map and `best_known_block`. -/

/-- `*last_blocks.values().max().unwrap_or(&0_u32)`. -/
def maxValueKV (l : List (Nat × Nat)) : Nat := (l.map Prod.snd).foldl max 0

/-- `evict_stalled(trackers, last_blocks, max_stall)`: collect the para ids
whose last block lags `max_block` by more than `max_stall`, then remove each
from both maps. -/
def evict_stalled (max_stall : Nat) (trackers : List Nat) (last_blocks : List (Nat × Nat)) :
    List Nat × List (Nat × Nat) :=
  let max_block := maxValueKV last_blocks
  let to_evict := (last_blocks.filter (fun kv => max_block - kv.2 > max_stall)).map Prod.fst
  (to_evict.foldl (fun tr para => tr.erase para) trackers,
    to_evict.foldl (fun lb para => eraseKV lb para) last_blocks)

/-- The supervisor state of `watch_node_broadcast` that the `NewHead` arm
mutates. -/
structure BroadcastState where
  trackers : List Nat
  last_blocks : List (Nat × Nat)
  best_known_block : Nat
deriving DecidableEq

/-- The `CollectorUpdateEvent::NewHead` arm of `watch_node_broadcast`: ensure
a tracker exists for `para_id`, record `relay_parent_number` as its last
block, and when it raises `best_known_block`, update it and evict stalled
trackers. -/
def processNewHead (max_stall : Nat) (st : BroadcastState) (para_id relay_parent_number : Nat) :
    BroadcastState :=
  let trackers :=
    if para_id ∈ st.trackers then st.trackers else st.trackers ++ [para_id]
  let last_blocks := insertKV st.last_blocks para_id relay_parent_number
  if relay_parent_number > st.best_known_block then
    let r := evict_stalled max_stall trackers last_blocks
    { trackers := r.1, last_blocks := r.2, best_known_block := relay_parent_number }
  else
    { trackers := trackers, last_blocks := last_blocks,
      best_known_block := st.best_known_block }

/-! ### Lemmas for the eviction bound -/

theorem containsKV_iff_mem_keys {K V : Type} [DecidableEq K] (l : List (K × V)) (k : K) :
    containsKV l k = true ↔ k ∈ keysKV l := by
  induction l with
  | nil => simp [containsKV, lookupKV, keysKV]
  | cons hd tl ih =>
      obtain ⟨k', v'⟩ := hd
      by_cases hk : k' = k
      · simp [containsKV, lookupKV, keysKV, hk]
      · simp only [containsKV, lookupKV, if_neg hk, keysKV, List.map_cons, List.mem_cons]
        rw [containsKV] at ih
        rw [ih]
        constructor
        · exact fun h => Or.inr h
        · rintro (h | h)
          · exact absurd h.symm hk
          · exact h
  
theorem lookup_some_of_mem_keys {K V : Type} [DecidableEq K] {l : List (K × V)} {k : K}
    (h : k ∈ keysKV l) : ∃ v, lookupKV l k = some v := by
  have := (containsKV_iff_mem_keys l k).mpr h
  rw [containsKV, Option.isSome_iff_exists] at this
  exact this

theorem mem_of_lookup_some {K V : Type} [DecidableEq K] : ∀ {l : List (K × V)} {k : K}
    {v : V}, lookupKV l k = some v → (k, v) ∈ l
  | [], k, v, h => by simp [lookupKV] at h
  | (k', v') :: rest, k, v, h => by
      by_cases hk : k' = k
      · subst hk
        simp [lookupKV] at h
        subst h
        exact List.mem_cons_self _ _
      · simp only [lookupKV, if_neg hk] at h
        exact List.mem_cons_of_mem _ (mem_of_lookup_some h)

theorem mem_insertKV {K V : Type} [DecidableEq K] {l : List (K × V)} {k : K} {v : V}
    {kv : K × V} (h : kv ∈ insertKV l k v) : kv = (k, v) ∨ kv ∈ l := by
  induction l with
  | nil => simpa [insertKV] using h
  | cons hd tl ih =>
      obtain ⟨k', v'⟩ := hd
      by_cases hk : k' = k
      · simp only [insertKV, if_pos hk, List.mem_cons] at h
        rcases h with h | h
        · subst hk
          exact Or.inl h
        · exact Or.inr (List.mem_cons_of_mem _ h)
      · simp only [insertKV, if_neg hk, List.mem_cons] at h
        rcases h with h | h
        · exact Or.inr (by simp [h])
        · rcases ih h with h2 | h2
          · exact Or.inl h2
          · exact Or.inr (List.mem_cons_of_mem _ h2)

theorem self_mem_insertKV {K V : Type} [DecidableEq K] : ∀ (l : List (K × V)) (k : K) (v : V),
    (k, v) ∈ insertKV l k v
  | [], k, v => by simp [insertKV]
  | (k', v') :: rest, k, v => by
      by_cases hk : k' = k
      · subst hk
        simp [insertKV]
      · simp only [insertKV, if_neg hk, List.mem_cons]
        exact Or.inr (self_mem_insertKV rest k v)

theorem keysKV_insertKV_eq {K V : Type} [DecidableEq K] : ∀ (l : List (K × V)) (k : K) (v : V),
    keysKV (insertKV l k v) =
      if containsKV l k then keysKV l else keysKV l ++ [k]
  | [], k, v => by simp [insertKV, keysKV, containsKV, lookupKV]
  | (k', v') :: rest, k, v => by
      by_cases hk : k' = k
      · simp [insertKV, keysKV, containsKV, lookupKV, hk]
      · have ih := keysKV_insertKV_eq rest k v
        simp only [insertKV, if_neg hk, keysKV, List.map_cons, containsKV, lookupKV] at ih ⊢
        rw [ih]
        by_cases hc : (lookupKV rest k).isSome <;> simp [hc]

theorem eraseKV_eq_filter {K V : Type} [DecidableEq K] : ∀ (l : List (K × V)) (k : K),
    (keysKV l).Nodup → eraseKV l k = l.filter (fun kv => decide (kv.1 ≠ k))
  | [], k, _ => by simp [eraseKV]
  | (k', v') :: rest, k, h => by
      simp only [keysKV, List.map_cons, List.nodup_cons] at h
      obtain ⟨hk', hrest⟩ := h
      by_cases hk : k' = k
      · subst hk
        have h1 : eraseKV ((k', v') :: rest) k' = rest := by simp [eraseKV]
        have h2 : ((k', v') :: rest).filter (fun kv => decide (kv.1 ≠ k')) =
            rest.filter (fun kv => decide (kv.1 ≠ k')) := by simp
        rw [h1, h2]
        symm
        apply List.filter_eq_self.mpr
        intro kv hkv
        have hmem : kv.1 ∈ keysKV rest := List.mem_map_of_mem Prod.fst hkv
        simp only [decide_eq_true_eq]
        intro he
        exact hk' (he ▸ hmem)
      · have h1 : eraseKV ((k', v') :: rest) k = (k', v') :: eraseKV rest k := by
          simp [eraseKV, hk]
        have h2 : ((k', v') :: rest).filter (fun kv => decide (kv.1 ≠ k)) =
            (k', v') :: rest.filter (fun kv => decide (kv.1 ≠ k)) := by simp [hk]
        rw [h1, h2, eraseKV_eq_filter rest k hrest]

theorem keysKV_filter_nodup {K V : Type} (l : List (K × V)) (p : K × V → Bool)
    (h : (keysKV l).Nodup) : (keysKV (l.filter p)).Nodup :=
  h.sublist ((List.filter_sublist l).map Prod.fst)

theorem foldl_eraseKV_eq_filter {K V : Type} [DecidableEq K] : ∀ (E : List K)
    (l : List (K × V)), (keysKV l).Nodup →
      E.foldl (fun acc a => eraseKV acc a) l = l.filter (fun kv => decide (kv.1 ∉ E))
  | [], l, _ => by simp
  | a :: E, l, h => by
      rw [List.foldl_cons, eraseKV_eq_filter l a h]
      rw [foldl_eraseKV_eq_filter E _ (keysKV_filter_nodup l _ h)]
      rw [List.filter_filter]
      apply List.filter_congr
      intro kv _
      by_cases h1 : kv.1 = a <;> by_cases h2 : kv.1 ∈ E <;> simp [h1, h2]

theorem foldl_erase_eq_filter {α : Type} [DecidableEq α] : ∀ (E : List α) (l : List α),
    l.Nodup → E.foldl (fun acc a => acc.erase a) l = l.filter (fun x => decide (x ∉ E))
  | [], l, _ => by simp
  | a :: E, l, h => by
      rw [List.foldl_cons, h.erase_eq_filter a]
      rw [foldl_erase_eq_filter E _ (h.sublist (List.filter_sublist l))]
      rw [List.filter_filter]
      apply List.filter_congr
      intro x _
      by_cases h1 : x = a <;> by_cases h2 : x ∈ E <;> simp [h1, h2]

theorem lookupKV_filter_not_mem {K V : Type} [DecidableEq K] : ∀ (l : List (K × V)) (E : List K)
    (k : K), k ∉ E →
      lookupKV (l.filter (fun kv => decide (kv.1 ∉ E))) k = lookupKV l k
  | [], E, k, _ => rfl
  | (k', v') :: rest, E, k, hk => by
      by_cases hmem : k' ∈ E
      · have h2 : ((k', v') :: rest).filter (fun kv => decide (kv.1 ∉ E)) =
            rest.filter (fun kv => decide (kv.1 ∉ E)) := by simp [hmem]
        rw [h2, lookupKV_filter_not_mem rest E k hk]
        have hne : k' ≠ k := fun he => hk (he ▸ hmem)
        simp [lookupKV, hne]
      · have h2 : ((k', v') :: rest).filter (fun kv => decide (kv.1 ∉ E)) =
            (k', v') :: rest.filter (fun kv => decide (kv.1 ∉ E)) := by simp [hmem]
        rw [h2]
        by_cases hke : k' = k
        · simp [lookupKV, hke]
        · simp only [lookupKV, if_neg hke]
          exact lookupKV_filter_not_mem rest E k hk

theorem init_le_foldl_max : ∀ (xs : List Nat) (a : Nat), a ≤ xs.foldl max a
  | [], a => le_refl a
  | y :: xs, a => le_trans (le_max_left a y) (init_le_foldl_max xs (max a y))

theorem le_foldl_max : ∀ (xs : List Nat) (a x : Nat), x ∈ xs → x ≤ xs.foldl max a
  | [], _, _, h => absurd h (List.not_mem_nil _)
  | y :: xs, a, x, h => by
      rcases List.mem_cons.mp h with h | h
      · subst h
        exact le_trans (le_max_right a x) (init_le_foldl_max xs (max a x))
      · exact le_foldl_max xs (max a y) x h

theorem foldl_max_le : ∀ (xs : List Nat) (a b : Nat), a ≤ b → (∀ x ∈ xs, x ≤ b) →
    xs.foldl max a ≤ b
  | [], a, b, ha, _ => ha
  | y :: xs, a, b, ha, h => by
      refine foldl_max_le xs (max a y) b ?_ (fun x hx => h x (List.mem_cons_of_mem _ hx))
      exact max_le ha (h y (List.mem_cons_self _ _))

theorem maxValueKV_eq {L : List (Nat × Nat)} {p n : Nat} (hmem : (p, n) ∈ L)
    (hle : ∀ kv ∈ L, kv.2 ≤ n) : maxValueKV L = n := by
  unfold maxValueKV
  apply le_antisymm
  · refine foldl_max_le _ 0 n (Nat.zero_le n) ?_
    intro x hx
    obtain ⟨kv, hkv, rfl⟩ := List.mem_map.mp hx
    exact hle kv hkv
  · exact le_foldl_max _ 0 n (List.mem_map_of_mem Prod.snd hmem)

/-- The core of claim C7: after `evict_stalled`, every parachain still
tracked has a `last_blocks` entry within `max_stall` of the maximum. -/
theorem evict_stalled_bound (max_stall : Nat) (T : List Nat) (L : List (Nat × Nat))
    (hTn : T.Nodup) (hLn : (keysKV L).Nodup) (hTL : ∀ q ∈ T, q ∈ keysKV L) :
    ∀ q ∈ (evict_stalled max_stall T L).1,
      ∃ lb, lookupKV (evict_stalled max_stall T L).2 q = some lb ∧
        maxValueKV L - lb ≤ max_stall := by
  intro q hq
  simp only [evict_stalled] at hq ⊢
  rw [foldl_erase_eq_filter _ _ hTn] at hq
  rw [foldl_eraseKV_eq_filter _ _ hLn]
  rw [List.mem_filter] at hq
  obtain ⟨hqT, hqE⟩ := hq
  rw [decide_eq_true_eq] at hqE
  obtain ⟨v, hv⟩ := lookup_some_of_mem_keys (hTL q hqT)
  refine ⟨v, ?_, ?_⟩
  · rw [lookupKV_filter_not_mem _ _ _ hqE]
    exact hv
  · by_contra hgt
    apply hqE
    refine List.mem_map.mpr ⟨(q, v), ?_, rfl⟩
    rw [List.mem_filter]
    refine ⟨mem_of_lookup_some hv, ?_⟩
    simp only [decide_eq_true_eq]
    omega

/-- C7: in the broadcast supervisor, a `NewHead` that strictly raises
`best_known_block` triggers eviction, after which every tracked parachain's
last block is within `max_stall` of the new `best_known_block`. The
hypotheses are the supervisor's maintained invariants: every tracked para id
has a `last_blocks` entry, both maps are duplicate-free, and no recorded
block exceeds `best_known_block`. -/
theorem C7_eviction (max_stall : Nat) (st : BroadcastState) (para_id n : Nat)
    (hsync : ∀ q ∈ st.trackers, q ∈ keysKV st.last_blocks)
    (hnodupT : st.trackers.Nodup)
    (hnodupK : (keysKV st.last_blocks).Nodup)
    (hbound : ∀ kv ∈ st.last_blocks, kv.2 ≤ st.best_known_block)
    (hraise : n > st.best_known_block) :
    ∀ q ∈ (processNewHead max_stall st para_id n).trackers,
      ∃ lb, lookupKV (processNewHead max_stall st para_id n).last_blocks q = some lb ∧
        (processNewHead max_stall st para_id n).best_known_block - lb ≤ max_stall := by
  have key : ∀ (T : List Nat) (L : List (Nat × Nat)), T.Nodup → (keysKV L).Nodup →
      (∀ q ∈ T, q ∈ keysKV L) → maxValueKV L = n →
      ∀ q ∈ (evict_stalled max_stall T L).1,
        ∃ lb, lookupKV (evict_stalled max_stall T L).2 q = some lb ∧
          n - lb ≤ max_stall := by
    intro T L h1 h2 h3 h4 q hq
    obtain ⟨lb, hlb, hle⟩ := evict_stalled_bound max_stall T L h1 h2 h3 q hq
    rw [h4] at hle
    exact ⟨lb, hlb, hle⟩
  have hTn : (if para_id ∈ st.trackers then st.trackers else
      st.trackers ++ [para_id]).Nodup := by
    by_cases hpar : para_id ∈ st.trackers
    · rw [if_pos hpar]
      exact hnodupT
    · rw [if_neg hpar]
      simp [List.nodup_append, hnodupT, hpar]
  have hLn : (keysKV (insertKV st.last_blocks para_id n)).Nodup := by
    rw [keysKV_insertKV_eq]
    by_cases hc : containsKV st.last_blocks para_id = true
    · rw [if_pos hc]
      exact hnodupK
    · rw [if_neg hc]
      have hnm : para_id ∉ keysKV st.last_blocks :=
        fun hm => hc ((containsKV_iff_mem_keys _ _).mpr hm)
      simp [List.nodup_append, hnodupK, hnm]
  have hsub : ∀ r, r ∈ keysKV st.last_blocks →
      r ∈ keysKV (insertKV st.last_blocks para_id n) := by
    intro r hr
    rw [keysKV_insertKV_eq]
    by_cases hc : containsKV st.last_blocks para_id = true
    · rw [if_pos hc]
      exact hr
    · rw [if_neg hc]
      exact List.mem_append_left _ hr
  have hparak : para_id ∈ keysKV (insertKV st.last_blocks para_id n) :=
    List.mem_map_of_mem Prod.fst (self_mem_insertKV _ _ _)
  have hTL : ∀ q ∈ (if para_id ∈ st.trackers then st.trackers else
      st.trackers ++ [para_id]), q ∈ keysKV (insertKV st.last_blocks para_id n) := by
    intro q hq
    by_cases hpar : para_id ∈ st.trackers
    · rw [if_pos hpar] at hq
      exact hsub q (hsync q hq)
    · rw [if_neg hpar] at hq
      rcases List.mem_append.mp hq with hq0 | hq1
      · exact hsub q (hsync q hq0)
      · rw [List.mem_singleton] at hq1
        subst hq1
        exact hparak
  have hvals : ∀ kv ∈ insertKV st.last_blocks para_id n, kv.2 ≤ n := by
    intro kv hkv
    rcases mem_insertKV hkv with rfl | hkv0
    · exact le_refl n
    · exact le_trans (hbound kv hkv0) (le_of_lt hraise)
  have hmax : maxValueKV (insertKV st.last_blocks para_id n) = n :=
    maxValueKV_eq (self_mem_insertKV st.last_blocks para_id n) hvals
  simp only [processNewHead, if_pos hraise]
  exact key _ _ hTn hLn hTL hmax

/-- The spec's S6 state: trackers for paras 100 and 200, `last_blocks =
{100 ↦ 1000, 200 ↦ 700}`, `best_known_block = 1000`. -/
def s6State : BroadcastState :=
  { trackers := [100, 200], last_blocks := [(100, 1000), (200, 700)],
    best_known_block := 1000 }

/-- C7 witness: the S6 scenario with `max_parachain_stall = 256` and a head
for para 100 at height 1100 — para 200 (stalled for 400 blocks) is evicted,
para 100 is retained, and the bound holds for every remaining tracker. -/
theorem C7_eviction_witness :
    (processNewHead 256 s6State 100 1100).trackers = [100] ∧
      (processNewHead 256 s6State 100 1100).last_blocks = [(100, 1100)] ∧
      (processNewHead 256 s6State 100 1100).best_known_block = 1100 ∧
      ∀ q ∈ (processNewHead 256 s6State 100 1100).trackers,
        ∃ lb, lookupKV (processNewHead 256 s6State 100 1100).last_blocks q = some lb ∧
          (processNewHead 256 s6State 100 1100).best_known_block - lb ≤ 256 :=
  ⟨by decide, by decide, by decide,
    C7_eviction 256 s6State 100 1100 (by decide) (by decide) (by decide) (by decide)
      (by decide)⟩

/-! ## `introspector/src/core/telemetry_feed.rs`

The telemetry feed decoder. The byte-level JSON parsing is done by the
external `serde_json` library; the model starts from its outcome: a `Json`
value tree. JSON numbers are modelled as `Int` (a non-integral number is
outside the model; every shape check below only asks whether a node is a
number, a string, null, an array or an object, and which range an integer
lies in, so this does not affect which payloads decode). An `H256` hash is
modelled as its JSON string (hex validation abstracted into the string). -/

/-- A parsed JSON value. -/
inductive Json where
  | null
  | bool (b : Bool)
  | num (n : Int)
  | str (s : String)
  | arr (elems : List Json)
  | obj (fields : List (String × Json))

/-- `NodeSysInfo` (all fields optional). -/
structure NodeSysInfo where
  cpu : Option String
  memory : Option Nat
  core_count : Option Nat
  linux_kernel : Option String
  linux_distro : Option String
  is_virtual_machine : Option Bool

/-- `NodeDetails`. -/
structure NodeDetails where
  name : String
  implementation : String
  version : String
  validator : Option String
  network_id : Option String
  ip : Option String
  sysinfo : Option NodeSysInfo

/-- `NodeStats`. -/
structure NodeStats where
  peers : Nat
  txcount : Nat

/-- `NodeLocation` (`f32` coordinates carried as model numbers). -/
structure NodeLocation where
  lat : Int
  long : Int
  city : String

/-- `NodeIO` (named `NodeIo` here). -/
structure NodeIo where
  used_state_cache_size : List Int

/-- `NodeHardware` (`f64` samples carried as model numbers). -/
structure NodeHardware where
  upload : List Int
  download : List Int
  chart_stamps : List Int

/-- `NodeHwBench` (the two score fields are required). -/
structure NodeHwBench where
  cpu_hashrate_score : Nat
  memory_memcpy_score : Nat
  disk_sequential_write_score : Option Nat
  disk_random_write_score : Option Nat

/-- `Block`. -/
structure Block where
  hash : String
  height : Nat

/-- `BlockDetails`. -/
structure BlockDetails where
  block : Block
  block_time : Nat
  block_timestamp : Nat
  propagation_time : Option Nat

/-- The telemetry feed messages (enum `TelemetryFeed`). `UnknownValue` keeps
the raw payload (the Rust code keeps its JSON text). -/
inductive TelemetryFeed where
  | Version (version : Nat)
  | BestBlock (block_number : Nat) (timestamp : Nat) (avg_block_time : Option Nat)
  | BestFinalized (block_number : Nat) (block_hash : String)
  | AddedNode (node_id : Nat) (details : NodeDetails) (stats : NodeStats) (io : NodeIo)
      (hardware : NodeHardware) (block_details : BlockDetails) (location : NodeLocation)
      (startup_time : Option Nat) (hwbench : Option NodeHwBench)
  | RemovedNode (node_id : Nat)
  | LocatedNode (node_id : Nat) (lat : Int) (long : Int) (city : String)
  | ImportedBlock (node_id : Nat) (block_details : BlockDetails)
  | FinalizedBlock (node_id : Nat) (block_number : Nat) (block_hash : String)
  | NodeStatsUpdate (node_id : Nat) (stats : NodeStats)
  | Hardware (node_id : Nat) (hardware : NodeHardware)
  | TimeSync (time : Nat)
  | AddedChain (name : String) (genesis_hash : String) (node_count : Nat)
  | RemovedChain (genesis_hash : String)
  | SubscribedTo (genesis_hash : String)
  | UnsubscribedFrom (genesis_hash : String)
  | Pong (msg : String)
  | StaleNode (node_id : Nat)
  | UnknownValue (action : Nat) (value : Json)

/-- serde: deserialize an unsigned integer (`u64` / `u32` / `usize`; the
upper range bound is abstracted, the sign check is kept). -/
def asNat : Json → Except String Nat
  | Json.num n => if 0 ≤ n then Except.ok n.toNat else Except.error "expected unsigned integer"
  | _ => Except.error "expected unsigned integer"

/-- serde: deserialize a `u8` (the action code; out-of-range numbers fail as
in `serde_json::from_str::<u8>`). -/
def asU8 : Json → Except String Nat
  | Json.num n =>
      if 0 ≤ n ∧ n < 256 then Except.ok n.toNat else Except.error "expected u8"
  | _ => Except.error "expected u8"

/-- serde: deserialize an `Option` of an unsigned integer. -/
def asOptNat : Json → Except String (Option Nat)
  | Json.null => Except.ok none
  | j => do
      let n ← asNat j
      Except.ok (some n)

/-- serde: deserialize a float (`f32`/`f64`, carried as a model number). -/
def asFloat : Json → Except String Int
  | Json.num n => Except.ok n
  | _ => Except.error "expected float"

/-- serde: deserialize a `Vec` of floats. -/
def asFloatList : Json → Except String (List Int)
  | Json.arr xs => xs.mapM asFloat
  | _ => Except.error "expected float array"

/-- serde: deserialize a string. -/
def asStr : Json → Except String String
  | Json.str s => Except.ok s
  | _ => Except.error "expected string"

/-- serde: deserialize an `Option<String>`. -/
def asOptStr : Json → Except String (Option String)
  | Json.null => Except.ok none
  | j => do
      let s ← asStr j
      Except.ok (some s)

/-- serde: deserialize a `bool`. -/
def asBoolJ : Json → Except String Bool
  | Json.bool b => Except.ok b
  | _ => Except.error "expected bool"

/-- serde: an `H256` block hash, modelled as its JSON string. -/
def asHash : Json → Except String String := asStr

/-- serde derive: an optional struct field — absent or null means `none`. -/
def optField {α : Type} (dec : Json → Except String α) (fields : List (String × Json))
    (name : String) : Except String (Option α) :=
  match lookupKV fields name with
  | none => Except.ok none
  | some Json.null => Except.ok none
  | some j => do
      let a ← dec j
      Except.ok (some a)

/-- serde derive: a required struct field. -/
def reqField {α : Type} (dec : Json → Except String α) (fields : List (String × Json))
    (name : String) : Except String α :=
  match lookupKV fields name with
  | none => Except.error "missing field"
  | some j => dec j

/-- serde: `Option<NodeSysInfo>` (a struct, so a JSON object). -/
def decodeSysInfo : Json → Except String (Option NodeSysInfo)
  | Json.null => Except.ok none
  | Json.obj fields => do
      let cpu ← optField asStr fields "cpu"
      let memory ← optField asNat fields "memory"
      let core_count ← optField asNat fields "core_count"
      let linux_kernel ← optField asStr fields "linux_kernel"
      let linux_distro ← optField asStr fields "linux_distro"
      let is_virtual_machine ← optField asBoolJ fields "is_virtual_machine"
      Except.ok (some
        { cpu := cpu, memory := memory, core_count := core_count,
          linux_kernel := linux_kernel, linux_distro := linux_distro,
          is_virtual_machine := is_virtual_machine })
  | _ => Except.error "expected NodeSysInfo"

/-- serde: `Option<NodeHwBench>`. -/
def decodeHwBench : Json → Except String (Option NodeHwBench)
  | Json.null => Except.ok none
  | Json.obj fields => do
      let c ← reqField asNat fields "cpu_hashrate_score"
      let m ← reqField asNat fields "memory_memcpy_score"
      let d1 ← optField asNat fields "disk_sequential_write_score"
      let d2 ← optField asNat fields "disk_random_write_score"
      Except.ok (some
        { cpu_hashrate_score := c, memory_memcpy_score := m,
          disk_sequential_write_score := d1, disk_random_write_score := d2 })
  | _ => Except.error "expected NodeHwBench"

/-- The tuple `(peers, txcount)`. -/
def decodeStats : Json → Except String NodeStats
  | Json.arr [p, t] => do
      let peers ← asNat p
      let txcount ← asNat t
      Except.ok { peers := peers, txcount := txcount }
  | _ => Except.error "expected NodeStats tuple"

/-- The tuple `(upload, download, chart_stamps)`. -/
def decodeHardware : Json → Except String NodeHardware
  | Json.arr [u, d, c] => do
      let upload ← asFloatList u
      let download ← asFloatList d
      let chart_stamps ← asFloatList c
      Except.ok { upload := upload, download := download, chart_stamps := chart_stamps }
  | _ => Except.error "expected NodeHardware tuple"

/-- The tuple `(height, hash, block_time, block_timestamp, propagation_time)`. -/
def decodeBlockDetails : Json → Except String BlockDetails
  | Json.arr [h, ha, bt, bts, pt] => do
      let height ← asNat h
      let hash ← asHash ha
      let block_time ← asNat bt
      let block_timestamp ← asNat bts
      let propagation_time ← asOptNat pt
      Except.ok
        { block := { hash := hash, height := height }, block_time := block_time,
          block_timestamp := block_timestamp, propagation_time := propagation_time }
  | _ => Except.error "expected BlockDetails tuple"

/-- `TelemetryFeed::decode`: deserialize one payload according to its action
code; unknown action codes yield `UnknownValue` and never fail. -/
def TelemetryFeed.decode (action : Nat) (raw_payload : Json) : Except String TelemetryFeed :=
  match action with
  | 0 => do
      let version ← asNat raw_payload
      Except.ok (TelemetryFeed.Version version)
  | 1 =>
      match raw_payload with
      | Json.arr [a, b, c] => do
          let block_number ← asNat a
          let timestamp ← asNat b
          let avg_block_time ← asOptNat c
          Except.ok (TelemetryFeed.BestBlock block_number timestamp avg_block_time)
      | _ => Except.error "expected BestBlock tuple"
  | 2 =>
      match raw_payload with
      | Json.arr [a, b] => do
          let block_number ← asNat a
          let block_hash ← asHash b
          Except.ok (TelemetryFeed.BestFinalized block_number block_hash)
      | _ => Except.error "expected BestFinalized tuple"
  | 3 =>
      match raw_payload with
      | Json.arr [nid, det, st, io1, hw, bd, loc, sut] =>
          match det, io1, loc with
          | Json.arr [nm, im, ve, va, ni, ip, sy, hb], Json.arr [uscs],
              Json.arr [la, lo, ci] => do
            let node_id ← asNat nid
            let name ← asStr nm
            let implementation ← asStr im
            let version ← asStr ve
            let validator ← asOptStr va
            let network_id ← asOptStr ni
            let ip ← asOptStr ip
            let sysinfo ← decodeSysInfo sy
            let hwbench ← decodeHwBench hb
            let stats ← decodeStats st
            let used_state_cache_size ← asFloatList uscs
            let hardware ← decodeHardware hw
            let block_details ← decodeBlockDetails bd
            let lat ← asFloat la
            let long ← asFloat lo
            let city ← asStr ci
            let startup_time ← asOptNat sut
            Except.ok (TelemetryFeed.AddedNode node_id
              { name := name, implementation := implementation, version := version,
                validator := validator, network_id := network_id, ip := ip,
                sysinfo := sysinfo }
              stats { used_state_cache_size := used_state_cache_size } hardware
              block_details { lat := lat, long := long, city := city } startup_time
              hwbench)
          | _, _, _ => Except.error "expected AddedNode tuple"
      | _ => Except.error "expected AddedNode tuple"
  | 4 => do
      let node_id ← asNat raw_payload
      Except.ok (TelemetryFeed.RemovedNode node_id)
  | 5 =>
      match raw_payload with
      | Json.arr [a, b, c, d] => do
          let node_id ← asNat a
          let lat ← asFloat b
          let long ← asFloat c
          let city ← asStr d
          Except.ok (TelemetryFeed.LocatedNode node_id lat long city)
      | _ => Except.error "expected LocatedNode tuple"
  | 6 =>
      match raw_payload with
      | Json.arr [a, b] => do
          let node_id ← asNat a
          let block_details ← decodeBlockDetails b
          Except.ok (TelemetryFeed.ImportedBlock node_id block_details)
      | _ => Except.error "expected ImportedBlock tuple"
  | 7 =>
      match raw_payload with
      | Json.arr [a, b, c] => do
          let node_id ← asNat a
          let block_number ← asNat b
          let block_hash ← asHash c
          Except.ok (TelemetryFeed.FinalizedBlock node_id block_number block_hash)
      | _ => Except.error "expected FinalizedBlock tuple"
  | 8 =>
      match raw_payload with
      | Json.arr [a, b] => do
          let node_id ← asNat a
          let stats ← decodeStats b
          Except.ok (TelemetryFeed.NodeStatsUpdate node_id stats)
      | _ => Except.error "expected NodeStatsUpdate tuple"
  | 9 =>
      match raw_payload with
      | Json.arr [a, b] => do
          let node_id ← asNat a
          let hardware ← decodeHardware b
          Except.ok (TelemetryFeed.Hardware node_id hardware)
      | _ => Except.error "expected Hardware tuple"
  | 10 => do
      let time ← asNat raw_payload
      Except.ok (TelemetryFeed.TimeSync time)
  | 11 =>
      match raw_payload with
      | Json.arr [a, b, c] => do
          let name ← asStr a
          let genesis_hash ← asHash b
          let node_count ← asNat c
          Except.ok (TelemetryFeed.AddedChain name genesis_hash node_count)
      | _ => Except.error "expected AddedChain tuple"
  | 12 => do
      let genesis_hash ← asHash raw_payload
      Except.ok (TelemetryFeed.RemovedChain genesis_hash)
  | 13 => do
      let genesis_hash ← asHash raw_payload
      Except.ok (TelemetryFeed.SubscribedTo genesis_hash)
  | 14 => do
      let genesis_hash ← asHash raw_payload
      Except.ok (TelemetryFeed.UnsubscribedFrom genesis_hash)
  | 15 => do
      let msg ← asStr raw_payload
      Except.ok (TelemetryFeed.Pong msg)
  | 20 => do
      let node_id ← asNat raw_payload
      Except.ok (TelemetryFeed.StaleNode node_id)
  | _ => Except.ok (TelemetryFeed.UnknownValue action raw_payload)

/-- `v.chunks_exact(2)`: consecutive pairs; a trailing unpaired element is
dropped, exactly as `chunks_exact` leaves a remainder. -/
def chunksExact2 : List Json → List (Json × Json)
  | a :: b :: rest => (a, b) :: chunksExact2 rest
  | _ => []

/-- One iteration of the `from_bytes` loop: parse the action as `u8`, then
decode the payload. -/
def decodePair (pr : Json × Json) : Except String TelemetryFeed :=
  match asU8 pr.1 with
  | Except.error e => Except.error e
  | Except.ok action => TelemetryFeed.decode action pr.2

/-- The `from_bytes` loop over the chunked pairs: the first failure aborts
the whole batch. -/
def decodeFeedList : List (Json × Json) → Except String (List TelemetryFeed)
  | [] => Except.ok []
  | pr :: rest =>
      match decodePair pr with
      | Except.error e => Except.error e
      | Except.ok msg =>
          match decodeFeedList rest with
          | Except.error e => Except.error e
          | Except.ok tail => Except.ok (msg :: tail)

/-- `TelemetryFeed::from_bytes`. The input is the outcome of
`serde_json::from_slice::<Vec<&RawValue>>` on the bytes: `none` when the
bytes are not valid JSON whose top level is an array (the `?` there returns
the serde error), `some v` with the array's elements otherwise. -/
def TelemetryFeed.from_bytes (parsed : Option (List Json)) :
    Except String (List TelemetryFeed) :=
  match parsed with
  | none => Except.error "invalid json"
  | some v => decodeFeedList (chunksExact2 v)

/-- C3 counterexample: an odd-length outer array is not an error. The input
`[0, 32, 1]` (three elements: the pair `0, 32` and a trailing unpaired `1`)
decodes to `Ok([Version(32)])` — `chunks_exact(2)` silently drops the
remainder, so no typed error is produced and a batch is returned. -/
theorem C3_odd_length_cex :
    [Json.num 0, Json.num 32, Json.num 1].length % 2 = 1 ∧
      TelemetryFeed.from_bytes (some [Json.num 0, Json.num 32, Json.num 1]) =
        Except.ok [TelemetryFeed.Version 32] :=
  ⟨rfl, rfl⟩

theorem decodeFeedList_error : ∀ (ps : List (Json × Json)),
    (∃ pr ∈ ps, (decodePair pr).isOk = false) →
      ∃ e, decodeFeedList ps = Except.error e
  | [], h => absurd h (by simp)
  | pr :: rest, h => by
      rcases h with ⟨pr0, hmem, hbad⟩
      rcases List.mem_cons.mp hmem with rfl | hmem0
      · cases hp : decodePair pr0 with
        | error e =>
            refine ⟨e, ?_⟩
            simp [decodeFeedList, hp]
        | ok msg => rw [hp] at hbad; simp [Except.isOk, Except.toBool] at hbad
      · cases hp : decodePair pr with
        | error e =>
            refine ⟨e, ?_⟩
            simp [decodeFeedList, hp]
        | ok msg =>
            obtain ⟨e, he⟩ := decodeFeedList_error rest ⟨pr0, hmem0, hbad⟩
            refine ⟨e, ?_⟩
            simp [decodeFeedList, hp, he]

theorem chunksExact2_append_single : ∀ (v : List Json) (x : Json), v.length % 2 = 0 →
    chunksExact2 (v ++ [x]) = chunksExact2 v
  | [], _, _ => rfl
  | [_], _, h => by simp at h
  | a :: b :: rest, x, h => by
      have h2 : rest.length % 2 = 0 := by
        simp only [List.length_cons] at h
        omega
      show (a, b) :: chunksExact2 (rest ++ [x]) = (a, b) :: chunksExact2 rest
      rw [chunksExact2_append_single rest x h2]

/-- C3 amended: malformed JSON (or a non-array top level) produces a typed
error and no batch, and so does any chunked action/payload pair that fails
to decode (a payload whose shape does not match its action code, or a
non-`u8` action); but an odd-length outer array alone is *not* an error —
the trailing unpaired element is silently dropped (`chunks_exact(2)` ignores
the remainder), and the rest of the batch is decoded as if it were absent. -/
theorem C3_decode_failures (v : List Json) (x : Json)
    (hfail : ∃ pr ∈ chunksExact2 v, (decodePair pr).isOk = false)
    (heven : v.length % 2 = 0) :
    (∃ e, TelemetryFeed.from_bytes none = Except.error e) ∧
      (∃ e, TelemetryFeed.from_bytes (some v) = Except.error e) ∧
      TelemetryFeed.from_bytes (some (v ++ [x])) = TelemetryFeed.from_bytes (some v) := by
  refine ⟨⟨"invalid json", rfl⟩, ?_, ?_⟩
  · obtain ⟨e, he⟩ := decodeFeedList_error (chunksExact2 v) hfail
    exact ⟨e, by simp [TelemetryFeed.from_bytes, he]⟩
  · show decodeFeedList (chunksExact2 (v ++ [x])) = decodeFeedList (chunksExact2 v)
    rw [chunksExact2_append_single v x heven]

/-- C3 witness: the concrete even-length batch `[0, "bad"]` — action 0
(`Version`) with a string payload — fails to decode; appending a trailing
element changes nothing. -/
theorem C3_decode_failures_witness :
    (∃ e, TelemetryFeed.from_bytes none = Except.error e) ∧
      (∃ e, TelemetryFeed.from_bytes (some [Json.num 0, Json.str "bad"]) =
        Except.error e) ∧
      TelemetryFeed.from_bytes (some ([Json.num 0, Json.str "bad"] ++ [Json.num 7])) =
        TelemetryFeed.from_bytes (some [Json.num 0, Json.str "bad"]) :=
  C3_decode_failures [Json.num 0, Json.str "bad"] (Json.num 7)
    ⟨(Json.num 0, Json.str "bad"), List.mem_cons_self _ _, rfl⟩ rfl
